import Mathlib

/-!
Verification of the middleware chain invoker, Express adapter and session
strategy of this repository.

The embedding below follows the TypeScript sources:
* `src/examples/passport-login/src/controllers/ping.controller.ts`
  (third document: `@loopback/express` middleware registration and
  `invokeMiddleware`),
* `src/packages/express/src/express.server.ts` (the Express adapter and
  the `ExpressServer` constructor's base-path normalization),
* `src/unnamed/part_000` (second document: `SessionStrategy`).

`MiddlewareChain.invokeInterceptors` and `compareBindingsByTag` are
repository code that is not under `src/` (only their caller
`invokeMiddleware` is); those parts are modelled from the spec
(sections 4.1 and 4.2) as indicated on each definition.
-/

namespace LoopbackMiddleware

/-- Observable effect of a middleware entry's before/after logic:
an entry logs `enter` when its body starts and `exit` after its inner
`next()` resolved. -/
inductive Event where
  | enter (name : String)
  | exit (name : String)
deriving DecidableEq, Repr

/-- Modelled from the spec (section 4.2): the behavior of one middleware
entry, as far as the chain can observe it. A `pass f` entry calls
`next()` once and returns `f` applied to the downstream result; a
`halt r` entry returns `r` without calling `next()` (short-circuit). -/
inductive Behavior (R : Type) where
  | pass (f : R → R)
  | halt (r : R)

/-- Whether a behavior calls `next()`. -/
def Behavior.isPass {R : Type} : Behavior R → Bool
  | .pass _ => true
  | .halt _ => false

/-- A middleware entry: a name used for its enter/exit log lines and its
observable behavior. -/
structure Mw (R : Type) where
  name : String
  behavior : Behavior R

/-- Result of invoking a chain: the event log, the entries whose body was
entered (in order), and the value returned to the caller. -/
structure Outcome (R : Type) where
  log : List Event
  entered : List (Mw R)
  result : R

/-- Modelled from the spec (section 4.2, `MiddlewareChain.invokeInterceptors`
is not under `src/`): invoke an ordered sequence of entries as nested
continuations around the terminal no-op returning `term`. A `pass` entry
logs enter, delegates to the rest of the chain, logs exit and transforms
the downstream result; a `halt` entry logs enter and returns its value
without entering any downstream entry. -/
def exec {R : Type} (term : R) : List (Mw R) → Outcome R
  | [] => ⟨[], [], term⟩
  | e :: rest =>
    match e.behavior with
    | .halt r => ⟨[Event.enter e.name], [e], r⟩
    | .pass f =>
      let o := exec term rest
      ⟨Event.enter e.name :: (o.log ++ [Event.exit e.name]), e :: o.entered, f o.result⟩

/-- Composition of the result transforms of a list of `pass` entries,
outermost first (`halt` entries contribute nothing; the theorems using
this only apply it to all-`pass` prefixes). -/
def applyPasses {R : Type} : List (Mw R) → R → R
  | [], r => r
  | e :: rest, r =>
    match e.behavior with
    | .pass f => f (applyPasses rest r)
    | .halt _ => applyPasses rest r

/-- Default extension point name used when no chain name is given
(`DEFAULT_MIDDLEWARE_CHAIN` of `@loopback/express`). -/
def DEFAULT_MIDDLEWARE_CHAIN : String := "middleware"

/-- A registered middleware binding: its binding key, the extension point
(chain) tag and the group tag applied by `asMiddleware` (the group tag
defaults to the empty string), and the middleware itself. -/
structure RegEntry (R : Type) where
  key : String
  chain : String
  group : String
  mw : Mw R

/-- Modelled from the spec (section 4.1, `compareBindingsByTag` is not under
`src/`): the sort position of a group, i.e. its index in `orderedGroups`
when present, else a position after all named groups. -/
def groupRank : List String → String → Nat
  | [], _ => 0
  | o :: rest, g => if o = g then 0 else groupRank rest g + 1

/-- The registry entries matching the extension-point filter
(`extensionFilter(chain)` in `invokeMiddleware`). -/
def matchingMiddleware {R : Type} (reg : List (RegEntry R)) (key : String) :
    List (RegEntry R) :=
  reg.filter (fun e => e.chain == key)

/-- Whether an entry's group has sort position `r` for the given
`orderedGroups`. -/
def rankIs {R : Type} (ogs : List String) (r : Nat) (e : RegEntry R) : Bool :=
  groupRank ogs e.group == r

/-- Concatenation of the rank buckets of `ms` for the listed ranks, each
bucket keeping registration order. -/
def bucketsConcat {R : Type} (ogs : List String) (ms : List (RegEntry R)) :
    List Nat → List (RegEntry R)
  | [] => []
  | i :: rest => ms.filter (rankIs ogs i) ++ bucketsConcat ogs ms rest

/-- Modelled from the spec (section 4.1): chain discovery. Filter the
registry by the extension-point key, then stably sort the matches by
group rank (entries of equal rank keep registration order) by listing
the rank buckets in increasing rank order. -/
def discover {R : Type} (reg : List (RegEntry R)) (key : String)
    (ogs : List String) : List (RegEntry R) :=
  bucketsConcat ogs (matchingMiddleware reg key) (List.range (ogs.length + 1))

/-- Model of `invokeMiddleware` (third document of
`ping.controller.ts`): materialize a fresh chain from the current
registry state by discovery, then invoke it around the terminal no-op
returning `term`. An absent `orderedGroups` imposes no group order. -/
def invokeMiddleware {R : Type} (reg : List (RegEntry R)) (chain : String)
    (orderedGroups : Option (List String)) (term : R) : Outcome R :=
  exec term ((discover reg chain (orderedGroups.getD [])).map (fun e => e.mw))

/-- What the Express adapter handler did with Express's `next` callback
after the LoopBack chain settled. -/
inductive NextCall (E : Type) where
  | notCalled
  | called
  | calledWithError (e : E)
deriving DecidableEq, Repr

/-- Model of the handler returned by `middlewareChain` in
`src/packages/express/src/express.server.ts` (lines 55-71): it awaits
`invokeMiddleware`; on a resolved value it calls `next()` exactly when
the value differs from the response object `res`, and on a rejection it
calls `next(err)` with the error. `invokeResult` stands for the settled
promise of `invokeMiddleware(middlewareCtx)`. -/
def middlewareChain {V E : Type} [DecidableEq V] (res : V)
    (invokeResult : Except E V) : NextCall E :=
  match invokeResult with
  | .error err => NextCall.calledWithError err
  | .ok result => if result ≠ res then NextCall.called else NextCall.notCalled

/-- JavaScript truthiness of an optional string (`undefined` and the
empty string are falsy). -/
def jsTruthyOptStr : Option String → Bool
  | none => false
  | some s => !(s == "")

/-- The option bag `MiddlewareBindingOptions` as used by the registration
functions; `none` stands for an absent property. -/
structure MiddlewareBindingOptionsM where
  key : Option String := none
  injectConfiguration : Option Bool := none
  chain : Option String := none
  group : Option String := none

/-- Observable outcome of a successful registration: either a plain
binding under an explicit key, or a binding created from a provider
class, each tagged with its extension point and group. -/
inductive RegOutcome where
  | bound (key chain group : String)
  | providerBound (chain group : String)
deriving DecidableEq, Repr

/-- Model of the `asMiddleware` binding template
(`ping.controller.ts`, third document, lines 646-654): the extension
point defaults to `DEFAULT_MIDDLEWARE_CHAIN` and the group tag to the
empty string. Returns the (chain, group) tag pair applied to the
binding. -/
def asMiddleware (options : MiddlewareBindingOptionsM) : String × String :=
  (options.chain.getD DEFAULT_MIDDLEWARE_CHAIN, options.group.getD "")

/-- Model of `registerMiddleware` (`ping.controller.ts`, third document,
lines 662-680): a provider class goes through `createMiddlewareBinding`;
a plain middleware function requires a truthy `options.key`
(`assert(options.key, 'options.key is missing.')`) and is bound under it
with the `asMiddleware` tags. -/
def registerMiddleware (isProviderClass : Bool)
    (options : MiddlewareBindingOptionsM) : Except String RegOutcome :=
  if isProviderClass then
    Except.ok (RegOutcome.providerBound (asMiddleware options).1 (asMiddleware options).2)
  else if jsTruthyOptStr options.key = false then
    Except.error "options.key is missing."
  else
    Except.ok (RegOutcome.bound (options.key.getD "") (asMiddleware options).1
      (asMiddleware options).2)

/-- Model of `registerExpressMiddleware` (`ping.controller.ts`, third
document, lines 613-640). `factoryName` stands for
`buildName(middlewareFactory)`, whose source is not under `src/`: `some
n` when the factory has a name `n`, else `none`. As in the source, when
`injectConfiguration` is disabled a key is derived into the local
variable `key` but never written back into `options` before calling
`registerMiddleware`. -/
def registerExpressMiddleware (factoryName : Option String)
    (options0 : MiddlewareBindingOptionsM) : Except String RegOutcome :=
  let options1 :=
    { options0 with injectConfiguration := some (options0.injectConfiguration.getD true) }
  let options :=
    { options1 with chain := some (options1.chain.getD DEFAULT_MIDDLEWARE_CHAIN) }
  if options.injectConfiguration = some false then
    let key := if jsTruthyOptStr options.key then options.key
               else factoryName.map (fun n => "interceptors." ++ n)
    registerMiddleware false options
  else
    registerMiddleware true options

/-- Whether the string starts with a slash (the `^\/` alternative of the
replace regex in the `ExpressServer` constructor). -/
def startsWithSlash (s : String) : Bool :=
  match s.data with
  | [] => false
  | c :: _ => c == '/'

/-- Whether the string ends with a slash (the `\/$` alternative of the
replace regex in the `ExpressServer` constructor). -/
def endsWithSlash (s : String) : Bool :=
  match s.data.getLast? with
  | some c => c == '/'
  | none => false

/-- One replacement step of `basePath.replace(/(^\/)|(\/$)/, '')` from the
`ExpressServer` constructor: the regex has no global flag, so only the
first match is replaced — the leading slash when present, else the
trailing slash when present. -/
def trimSlashOnce (s : String) : String :=
  if startsWithSlash s then String.mk (s.data.drop 1)
  else if endsWithSlash s then String.mk s.data.dropLast
  else s

/-- Model of the base-path normalization in the `ExpressServer`
constructor (`src/packages/express/src/express.server.ts`, lines
101-105): default the configured base path to the empty string, apply the
single-match replace, then prefix a slash when the result is non-empty. -/
def normalizeBasePath (configBasePath : Option String) : String :=
  let b := configBasePath.getD ""
  let b := trimSlashOnce b
  if b ≠ "" then "/" ++ b else b

end LoopbackMiddleware

namespace PassportLogin

/-- The user record carried on the session/request, as far as
`SessionStrategy` reads it. `id` and `email` are optional because the
strategy guards against their absence; `name` stands for the remaining
profile fields copied by the spread in `mapProfile`. -/
structure User where
  id : Option Nat
  email : Option String
  name : String
deriving DecidableEq, Repr

/-- JavaScript truthiness checks used by `SessionStrategy.authenticate`:
`!user.email` is true for an absent or empty email, `!user.id` for an
absent or zero id. -/
def jsFalsyEmail : Option String → Bool
  | none => true
  | some s => s == ""

/-- See `jsFalsyEmail`; `0` is falsy for a numeric id. -/
def jsFalsyId : Option Nat → Bool
  | none => true
  | some n => n == 0

/-- JavaScript string coercion `'' + user.id` used for the security id. -/
def jsStringOfId : Option Nat → String
  | none => "undefined"
  | some n => toString n

/-- The `UserProfile` produced by `SessionStrategy.mapProfile`. -/
structure UserProfileM where
  securityId : String
  profile : User
deriving DecidableEq, Repr

/-- The possible shapes of a resolved `AuthenticationStrategy.authenticate`
result: a user profile, a redirect route, or `undefined`. -/
inductive AuthOutcome where
  | profile (p : UserProfileM)
  | redirect (url : String)
  | undef
deriving DecidableEq, Repr

/-- Model of `SessionStrategy.mapProfile` (`src/unnamed/part_000`, lines
152-160): the security id is the string form of the user's id and the
`profile` field copies the user's fields. -/
def mapProfile (user : User) : UserProfileM :=
  { securityId := jsStringOfId user.id, profile := user }

/-- Model of `SessionStrategy.authenticate` (`src/unnamed/part_000`,
lines 123-146). `requestUser` is `request.user` (`none` when the request
carries no user) and `repo` is the state of the user repository queried
by `this.userRepository.find({where: {email: user.email}})`. Errors
carry the message of the `Unauthorized` error thrown. -/
def authenticate (repo : List User) (requestUser : Option User) :
    Except String AuthOutcome :=
  match requestUser with
  | none => Except.error "Invalid Session"
  | some user =>
    if jsFalsyEmail user.email || jsFalsyId user.id then
      Except.error "Invalid user profile"
    else
      let users := repo.filter (fun u => u.email == user.email)
      if users.isEmpty then Except.error "User not registered"
      else Except.ok (AuthOutcome.profile (mapProfile user))

end PassportLogin

namespace LoopbackMiddleware

/-- A group's sort position never exceeds the number of named groups. -/
theorem groupRank_le (ogs : List String) (g : String) : groupRank ogs g ≤ ogs.length := by
  induction ogs with
  | nil => simp [groupRank]
  | cons o rest ih =>
    by_cases h : o = g
    · simp [groupRank, h]
    · simp only [groupRank, if_neg h, List.length_cons]
      exact Nat.succ_le_succ ih

/-- Filtering a rank bucket by a different rank yields nothing. -/
theorem filter_rankIs_of_ne {R : Type} (ogs : List String) (ms : List (RegEntry R))
    (i r : Nat) (h : i ≠ r) :
    (ms.filter (rankIs ogs i)).filter (rankIs ogs r) = [] := by
  apply List.filter_eq_nil_iff.mpr
  intro e he
  have hi : rankIs ogs i e = true := List.of_mem_filter he
  simp only [rankIs, beq_iff_eq] at hi ⊢
  omega

/-- Filtering a rank bucket by its own rank keeps it unchanged. -/
theorem filter_rankIs_self {R : Type} (ogs : List String) (ms : List (RegEntry R)) (r : Nat) :
    (ms.filter (rankIs ogs r)).filter (rankIs ogs r) = ms.filter (rankIs ogs r) := by
  apply List.filter_eq_self.mpr
  intro e he
  exact List.of_mem_filter he

/-- `bucketsConcat` distributes over appended rank lists. -/
theorem bucketsConcat_append {R : Type} (ogs : List String) (ms : List (RegEntry R))
    (l₁ l₂ : List Nat) :
    bucketsConcat ogs ms (l₁ ++ l₂) = bucketsConcat ogs ms l₁ ++ bucketsConcat ogs ms l₂ := by
  induction l₁ with
  | nil => simp [bucketsConcat]
  | cons i rest ih => simp [bucketsConcat, ih, List.append_assoc]

/-- The entries of rank `r` in the bucket concatenation over the first `m`
ranks are exactly the rank-`r` entries of `ms` (in registration order)
when `r < m`, and none otherwise. -/
theorem filter_bucketsConcat_range {R : Type} (ogs : List String) (ms : List (RegEntry R))
    (r : Nat) : ∀ m : Nat,
    (bucketsConcat ogs ms (List.range m)).filter (rankIs ogs r)
      = if r < m then ms.filter (rankIs ogs r) else [] := by
  intro m
  induction m with
  | zero => simp [bucketsConcat]
  | succ m ih =>
    rw [List.range_succ, bucketsConcat_append, List.filter_append, ih]
    by_cases h : r = m
    · subst h
      simp [bucketsConcat, filter_rankIs_self, Nat.lt_irrefl, Nat.lt_succ_self]
    · rw [show bucketsConcat ogs ms [m] = ms.filter (rankIs ogs m) by simp [bucketsConcat]]
      rw [filter_rankIs_of_ne ogs ms m r (fun hh => h hh.symm)]
      by_cases hlt : r < m
      · simp [hlt, Nat.lt_succ_of_lt hlt]
      · have hge : ¬ r < m + 1 := by omega
        simp [hlt, hge]

/-- Discovery is a stable sort: for every rank, the discovered entries of
that rank are exactly the matching registry entries of that rank, in
registration order. -/
theorem discover_stable {R : Type} (reg : List (RegEntry R)) (key : String)
    (ogs : List String) (r : Nat) :
    (discover reg key ogs).filter (rankIs ogs r)
      = (matchingMiddleware reg key).filter (rankIs ogs r) := by
  rw [discover, filter_bucketsConcat_range]
  by_cases h : r < ogs.length + 1
  · simp [h]
  · rw [if_neg h]
    symm
    apply List.filter_eq_nil_iff.mpr
    intro e he
    have := groupRank_le ogs e.group
    simp only [rankIs, beq_iff_eq]
    omega

/-- Bucket concatenation over an empty match list is empty. -/
theorem bucketsConcat_nil {R : Type} (ogs : List String) (idxs : List Nat) :
    bucketsConcat (R := R) ogs [] idxs = [] := by
  induction idxs with
  | nil => rfl
  | cons i rest ih => simp [bucketsConcat, ih]

/-- A group's sort position equals the number of named groups exactly when
the group is not named in `orderedGroups`. -/
theorem groupRank_eq_length_iff (ogs : List String) (g : String) :
    groupRank ogs g = ogs.length ↔ g ∉ ogs := by
  induction ogs with
  | nil => simp [groupRank]
  | cons o rest ih =>
    by_cases h : o = g
    · subst h
      simp [groupRank]
    · simp only [groupRank, if_neg h, List.length_cons, Nat.succ_inj, ih,
        List.mem_cons]
      constructor
      · intro hn hc
        rcases hc with hc | hc
        · exact h hc.symm
        · exact hn hc
      · intro hn hc
        exact hn (Or.inr hc)

/-- Selecting the entries whose group is not named in `orderedGroups` is
the same as selecting the entries of the last sort position. -/
theorem decide_notMem_eq_rankIs {R : Type} (ogs : List String) :
    (fun (e : RegEntry R) => decide (e.group ∉ ogs)) = rankIs ogs ogs.length := by
  funext e
  by_cases h : e.group ∈ ogs
  · have hne : groupRank ogs e.group ≠ ogs.length :=
      fun hc => (groupRank_eq_length_iff ogs e.group).mp hc h
    simp [rankIs, h, hne]
  · have heq : groupRank ogs e.group = ogs.length :=
      (groupRank_eq_length_iff ogs e.group).mpr h
    simp [rankIs, h, heq]

/-- An entry that calls `next()` once and logs around it, mirroring the
logging middleware of the spec's onion-ordering property. -/
def logEntry (nm : String) : Mw Nat := ⟨nm, Behavior.pass id⟩

/-- Registered binding of a logging entry on the default chain with
group tag `g`. -/
def logBinding (key nm g : String) : RegEntry Nat :=
  ⟨key, DEFAULT_MIDDLEWARE_CHAIN, g, logEntry nm⟩

/-- Entry A of the spec's discovery examples, tagged group `g1`. -/
def entryA : RegEntry Nat := logBinding "binding.a" "A" "g1"

/-- Entry B of the spec's discovery examples, tagged group `g2`. -/
def entryB : RegEntry Nat := logBinding "binding.b" "B" "g2"

/-- Entry C of the spec's discovery examples, with no group tag
(`asMiddleware` defaults the group to the empty string). -/
def entryC : RegEntry Nat := logBinding "binding.c" "C" ""

/-- Ungrouped entries A, B, C used for the registration-order examples. -/
def entryA0 : RegEntry Nat := logBinding "binding.a0" "A" ""

/-- See `entryA0`. -/
def entryB0 : RegEntry Nat := logBinding "binding.b0" "B" ""

/-- See `entryA0`. -/
def entryC0 : RegEntry Nat := logBinding "binding.c0" "C" ""

end LoopbackMiddleware

namespace LoopbackMiddleware

/-- Claim C1: for three entries that each log enter before calling
`next()` and exit after it resolves, invoking the chain via
`invokeMiddleware` logs enter1, enter2, enter3, exit3, exit2, exit1:
before-logic in chain order, then the terminal no-op (whose result is
returned), then after-logic in reverse chain order. -/
theorem invokeMiddleware_onion_order :
    ∀ (a b c : String) (term : Nat),
      invokeMiddleware
        [⟨"k1", DEFAULT_MIDDLEWARE_CHAIN, "", ⟨a, Behavior.pass id⟩⟩,
         ⟨"k2", DEFAULT_MIDDLEWARE_CHAIN, "", ⟨b, Behavior.pass id⟩⟩,
         ⟨"k3", DEFAULT_MIDDLEWARE_CHAIN, "", ⟨c, Behavior.pass id⟩⟩]
        DEFAULT_MIDDLEWARE_CHAIN none term
      = ⟨[Event.enter a, Event.enter b, Event.enter c,
          Event.exit c, Event.exit b, Event.exit a],
         [⟨a, Behavior.pass id⟩, ⟨b, Behavior.pass id⟩, ⟨c, Behavior.pass id⟩],
         term⟩ :=
  fun _ _ _ _ => rfl

/-- Claim C2: with A tagged group `g1`, B tagged group `g2`, C untagged,
registered in order A, B, C, discovery with `orderedGroups = [g2, g1]`
yields [B, A, C]; the invoked chain runs the middleware in that order. -/
theorem discover_orderedGroups_example :
    discover [entryA, entryB, entryC] DEFAULT_MIDDLEWARE_CHAIN ["g2", "g1"]
      = [entryB, entryA, entryC]
    ∧ (invokeMiddleware [entryA, entryB, entryC] DEFAULT_MIDDLEWARE_CHAIN
        (some ["g2", "g1"]) 0).entered
      = [entryB.mw, entryA.mw, entryC.mw] :=
  ⟨rfl, rfl⟩

/-- Claim C3: discovery is a stable sort — for every sort position the
discovered entries of that position are exactly the matching registry
entries of that position in registration order; in particular entries
whose group is not named in `orderedGroups` (including untagged entries)
keep their relative registration order, and ungrouped entries A, B, C
with no `orderedGroups` are discovered as [A, B, C]. -/
theorem discover_stable_registration_order :
    (∀ (reg : List (RegEntry Nat)) (key : String) (ogs : List String) (r : Nat),
      (discover reg key ogs).filter (rankIs ogs r)
        = (matchingMiddleware reg key).filter (rankIs ogs r))
    ∧ (∀ (reg : List (RegEntry Nat)) (key : String) (ogs : List String),
      (discover reg key ogs).filter (fun e => decide (e.group ∉ ogs))
        = (matchingMiddleware reg key).filter (fun e => decide (e.group ∉ ogs)))
    ∧ discover [entryA0, entryB0, entryC0] DEFAULT_MIDDLEWARE_CHAIN []
        = [entryA0, entryB0, entryC0]
    ∧ (invokeMiddleware [entryA0, entryB0, entryC0] DEFAULT_MIDDLEWARE_CHAIN
        none 0).entered
      = [entryA0.mw, entryB0.mw, entryC0.mw] := by
  refine ⟨fun reg key ogs r => discover_stable reg key ogs r, ?_, rfl, rfl⟩
  intro reg key ogs
  rw [decide_notMem_eq_rankIs]
  exact discover_stable reg key ogs ogs.length

/-- Claim C4: when every entry before position i calls `next()` and the
entry at position i returns `r` without calling `next()`, no later entry
is entered (the entered entries are exactly positions 0..i), the log
shows the upstream enters, the halting entry's enter and the upstream
after-logic in reverse, and the chain's result is `r` as propagated
through the upstream entries' result transforms. -/
theorem chain_short_circuit {R : Type} (term r : R) (nm : String)
    (pre post : List (Mw R)) (hpre : ∀ e ∈ pre, e.behavior.isPass = true) :
    exec term (pre ++ (⟨nm, Behavior.halt r⟩ :: post))
      = ⟨pre.map (fun e => Event.enter e.name)
           ++ Event.enter nm :: (pre.reverse.map (fun e => Event.exit e.name)),
         pre ++ [⟨nm, Behavior.halt r⟩],
         applyPasses pre r⟩ := by
  induction pre with
  | nil => simp [exec, applyPasses]
  | cons e rest ih =>
    have he : e.behavior.isPass = true := hpre e (List.mem_cons_self e rest)
    have hrest : ∀ x ∈ rest, x.behavior.isPass = true :=
      fun x hx => hpre x (List.mem_cons_of_mem e hx)
    match hb : e.behavior with
    | .halt _ => rw [hb] at he; simp [Behavior.isPass] at he
    | .pass f =>
      simp only [List.cons_append, exec, hb, List.append_eq]
      rw [ih hrest]
      simp [applyPasses, hb, List.reverse_cons, List.map_append, List.append_assoc]

/-- Witness for claim C4: a pass-through entry, then an entry halting
with 7, then a never-entered entry. -/
theorem chain_short_circuit_witness :
    (∀ e ∈ [(⟨"a", Behavior.pass id⟩ : Mw Nat)], e.behavior.isPass = true)
    ∧ exec 0 ([(⟨"a", Behavior.pass id⟩ : Mw Nat)]
        ++ (⟨"stop", Behavior.halt 7⟩ :: [⟨"z", Behavior.pass id⟩]))
      = ⟨[Event.enter "a", Event.enter "stop", Event.exit "a"],
         [⟨"a", Behavior.pass id⟩, ⟨"stop", Behavior.halt 7⟩], 7⟩ :=
  ⟨by decide,
   chain_short_circuit 0 7 "stop" [⟨"a", Behavior.pass id⟩] [⟨"z", Behavior.pass id⟩]
     (by decide)⟩

/-- Claim C5: the Express adapter handler calls `next()` with no argument
exactly when `invokeMiddleware` resolved to a value other than the
response object, calls nothing when it resolved to the response object,
and calls `next(err)` when it rejected. -/
theorem middlewareChain_next_semantics :
    ∀ (res v : Nat) (e : String),
      (v ≠ res → middlewareChain res (Except.ok v : Except String Nat)
        = NextCall.called)
      ∧ middlewareChain res (Except.ok res : Except String Nat)
        = NextCall.notCalled
      ∧ middlewareChain res (Except.error e : Except String Nat)
        = NextCall.calledWithError e :=
  fun res v e =>
    ⟨fun h => by simp [middlewareChain, h],
     by simp [middlewareChain],
     rfl⟩

/-- Witness for claim C5 at response object 0, resolved value 1 and
error "boom". -/
theorem middlewareChain_next_semantics_witness :
    ((1 : Nat) ≠ 0
      ∧ middlewareChain 0 (Except.ok 1 : Except String Nat) = NextCall.called)
    ∧ middlewareChain 0 (Except.ok 0 : Except String Nat) = NextCall.notCalled
    ∧ middlewareChain 0 (Except.error "boom" : Except String Nat)
      = NextCall.calledWithError "boom" :=
  ⟨⟨by decide, (middlewareChain_next_semantics 0 1 "boom").1 (by decide)⟩,
   (middlewareChain_next_semantics 0 1 "boom").2.1,
   (middlewareChain_next_semantics 0 1 "boom").2.2⟩

/-- Claim C6: when no registered entry matches the extension point,
invoking the chain is not an error: it returns the terminal no-op's
result with an empty log and no entered entry. -/
theorem invokeMiddleware_empty_chain {R : Type} (reg : List (RegEntry R))
    (chain : String) (ogs : Option (List String)) (term : R)
    (h : ∀ e ∈ reg, e.chain ≠ chain) :
    invokeMiddleware reg chain ogs term = ⟨[], [], term⟩ := by
  have hm : matchingMiddleware reg chain = [] := by
    apply List.filter_eq_nil_iff.mpr
    intro e he
    simp only [beq_iff_eq]
    exact h e he
  rw [invokeMiddleware, discover, hm, bucketsConcat_nil]
  rfl

/-- Witness for claim C6: a registry whose only entry is tagged for a
different extension point. -/
theorem invokeMiddleware_empty_chain_witness :
    (∀ e ∈ [(⟨"k", "other", "", logEntry "m"⟩ : RegEntry Nat)],
      e.chain ≠ DEFAULT_MIDDLEWARE_CHAIN)
    ∧ invokeMiddleware [(⟨"k", "other", "", logEntry "m"⟩ : RegEntry Nat)]
        DEFAULT_MIDDLEWARE_CHAIN none 5
      = ⟨[], [], 5⟩ :=
  ⟨by decide,
   invokeMiddleware_empty_chain [⟨"k", "other", "", logEntry "m"⟩]
     DEFAULT_MIDDLEWARE_CHAIN none 5 (by decide)⟩

/-- Claim C7: discovery over the same registry state, key and group order
always yields the same ordered sequence (it is a pure function of them,
with no state of its own), and because `invokeMiddleware` materializes a
fresh chain per invocation, an entry registered between two invocations
is observed by the later one. -/
theorem discovery_pure_and_fresh :
    (∀ (reg : List (RegEntry Nat)) (key : String) (ogs : List String),
      discover reg key ogs = discover reg key ogs)
    ∧ (∀ (reg : List (RegEntry Nat)) (key : String) (ogs : Option (List String))
        (term : Nat),
      invokeMiddleware reg key ogs term
        = exec term ((discover reg key (ogs.getD [])).map (fun e => e.mw)))
    ∧ (invokeMiddleware [entryA0] DEFAULT_MIDDLEWARE_CHAIN none 0).log
      = [Event.enter "A", Event.exit "A"]
    ∧ (invokeMiddleware [entryA0, entryB0] DEFAULT_MIDDLEWARE_CHAIN none 0).log
      = [Event.enter "A", Event.enter "B", Event.exit "B", Event.exit "A"] :=
  ⟨fun _ _ _ => rfl, fun _ _ _ _ => rfl, rfl, rfl⟩

/-- Claim C8 (code bug): with `injectConfiguration` disabled and no key
supplied, `registerExpressMiddleware` fails with the configuration
assertion `options.key is missing.` even when the factory has a name
from which `interceptors.spy` is derivable, because the derived key is
left in a local variable and never written back into `options`; the
underivable case (anonymous factory) fails the same way, at registration
time. -/
theorem registerExpressMiddleware_derived_key_dropped :
    registerExpressMiddleware (some "spy")
        { key := none, injectConfiguration := some false, chain := none, group := none }
      = Except.error "options.key is missing."
    ∧ registerExpressMiddleware none
        { key := none, injectConfiguration := some false, chain := none, group := none }
      = Except.error "options.key is missing." :=
  ⟨rfl, rfl⟩

/-- Claim C9 (code bug): the `ExpressServer` constructor normalizes the
configured base path `/api/` to `/api/` itself — the single-match
replace removes only the leading slash, the slash prefix is re-added,
and the result still ends with a slash, contrary to the code's own
"Trim leading and trailing `/`" comment. -/
theorem basePath_trailing_slash_not_trimmed :
    normalizeBasePath (some "/api/") = "/api/"
    ∧ endsWithSlash (normalizeBasePath (some "/api/")) = true
    ∧ normalizeBasePath (some "/api/") ≠ "" := by
  refine ⟨by decide, by decide, by decide⟩

end LoopbackMiddleware

namespace PassportLogin

/-- Claim C10: `SessionStrategy.authenticate` throws Unauthorized exactly
when the request carries no user, or the carried user's email or id is
missing (JavaScript-falsy: absent, empty string, or zero), or the
repository holds no user with that email; otherwise it resolves to a
profile whose security id is the string form of the carried user's id
and whose `profile` field copies the user's fields, and a resolved value
is always a profile, never a redirect or `undefined`. -/
theorem sessionStrategy_authenticate_cases :
    (∀ repo : List User, authenticate repo none = Except.error "Invalid Session")
    ∧ (∀ (repo : List User) (u : User),
        (jsFalsyEmail u.email || jsFalsyId u.id) = true →
        authenticate repo (some u) = Except.error "Invalid user profile")
    ∧ (∀ (repo : List User) (u : User),
        (jsFalsyEmail u.email || jsFalsyId u.id) = false →
        (repo.filter (fun v => v.email == u.email)).isEmpty = true →
        authenticate repo (some u) = Except.error "User not registered")
    ∧ (∀ (repo : List User) (u : User),
        (jsFalsyEmail u.email || jsFalsyId u.id) = false →
        (repo.filter (fun v => v.email == u.email)).isEmpty = false →
        authenticate repo (some u)
          = Except.ok (AuthOutcome.profile ⟨jsStringOfId u.id, u⟩))
    ∧ (∀ (repo : List User) (ru : Option User) (o : AuthOutcome),
        authenticate repo ru = Except.ok o → ∃ p, o = AuthOutcome.profile p) := by
  refine ⟨fun repo => rfl, ?_, ?_, ?_, ?_⟩
  · intro repo u h1
    simp [authenticate, h1]
  · intro repo u h1 h2
    simp [authenticate, h1, h2]
  · intro repo u h1 h2
    simp [authenticate, h1, h2, mapProfile]
  · intro repo ru o h
    cases ru with
    | none => simp [authenticate] at h
    | some u =>
      cases hf : (jsFalsyEmail u.email || jsFalsyId u.id) with
      | true => simp [authenticate, hf] at h
      | false =>
        cases he : (repo.filter (fun v => v.email == u.email)).isEmpty with
        | true => simp [authenticate, hf, he] at h
        | false =>
          simp [authenticate, hf, he] at h
          exact ⟨mapProfile u, h.symm⟩

/-- A registered user used by the witness for claim C10. -/
def userOne : User := ⟨some 1, some "alice@example.com", "Alice"⟩

/-- Witness for claim C10: a session user with id 1 whose email is in the
repository authenticates to the profile with security id "1". -/
theorem sessionStrategy_authenticate_cases_witness :
    (jsFalsyEmail userOne.email || jsFalsyId userOne.id) = false
    ∧ ([userOne].filter (fun v => v.email == userOne.email)).isEmpty = false
    ∧ authenticate [userOne] (some userOne)
      = Except.ok (AuthOutcome.profile ⟨"1", userOne⟩) :=
  ⟨by decide, by decide,
   sessionStrategy_authenticate_cases.2.2.2.1 [userOne] userOne
     (by decide) (by decide)⟩

end PassportLogin
